import Mathlib

/-!
Verification development for the vectorlink batch vectorization pipeline
(`src/batch.rs`).  The definitions below are shallow embeddings of the
functions in that file: the token chunker (`TokenChunk`), the vector store
writer (`save_embeddings`), the checkpoint file handling and the orchestrator
loop of `vectorize_from_operations`, together with an event-trace model of the
`buffered(10)` dispatch pipeline and a small-step model of the bounded
scheduler.
-/

namespace Vectorlink

/-! ### Chunker: `TokenChunk` (src/batch.rs lines 155-206)

The token-count function `tk` stands for the external tokenizer boundary
(`truncated_tokens_for`, external to this file): `tk s` is the length of the
token list computed for `s`.
-/

structure ChunkSt where
  collector : List String
  current_count : Nat
deriving DecidableEq

/-- Embedding of `TokenChunk::collect_string` (lines 171-185).  Returns the
emitted chunk (if any) and the successor state.  Note that the source updates
`current_count` only in the flush branch; in the append branch it pushes the
string but leaves `current_count` unchanged. -/
def collect_string (limit : Nat) (tk : String → Nat) (st : ChunkSt) (s : String) :
    Option (List String) × ChunkSt :=
  let tokens := tk s
  let new_count := st.current_count + tokens
  if new_count > limit then
    (some st.collector, ⟨[s], tokens⟩)
  else
    (none, ⟨st.collector ++ [s], st.current_count⟩)

/-- The chunk sequence produced by repeatedly polling `TokenChunk` over a
finite item sequence, together with the final (pending) state.  Mirrors
`poll_next` (lines 191-205): each ready item goes through `collect_string`;
on exhaustion (`Poll::Ready(None)`) the stream ends without flushing the
pending collector. -/
def chunkRun (limit : Nat) (tk : String → Nat) :
    ChunkSt → List String → List (List String) × ChunkSt
  | st, [] => ([], st)
  | st, s :: rest =>
    match collect_string limit tk st s with
    | (some c, st') =>
      let p := chunkRun limit tk st' rest
      (c :: p.1, p.2)
    | (none, st') => chunkRun limit tk st' rest

/-- The chunks emitted for a full run from the initial state (`TokenChunk::new`,
lines 163-170: empty collector, zero count). -/
def chunks (limit : Nat) (tk : String → Nat) (items : List String) : List (List String) :=
  (chunkRun limit tk ⟨[], 0⟩ items).1

/-! ### VectorStore: `save_embeddings` (src/batch.rs lines 32-46)

Files are modelled as byte lists (each entry < 256).  An `Embedding` is a
fixed-dimension vector of 32-bit floats; we model each float by its 32-bit
word, and its in-memory bytes in the little-endian layout the transmute
reads. -/

/-- Write `b` into `file` starting at byte position `pos` (zero-filling any
gap past the end of the file), leaving all other bytes unchanged. -/
def writeBytesAt (file : List Nat) (pos : Nat) (b : List Nat) : List Nat :=
  (file.take pos ++ List.replicate (pos - file.length) 0 ++ b) ++ file.drop (pos + b.length)

def float_byte_width : Nat := 4

/-- The four in-memory bytes of one 32-bit float word. -/
def wordBytes (w : Nat) : List Nat :=
  [w % 256, w / 256 % 256, w / 2 ^ 16 % 256, w / 2 ^ 24 % 256]

/-- The in-memory bytes of one embedding (a vector of 32-bit words). -/
def embeddingBytes (e : List Nat) : List Nat := (e.map wordBytes).flatten

/-- The in-memory bytes of a batch of embeddings, back to back. -/
def batchBytes (embeddings : List (List Nat)) : List Nat :=
  (embeddings.map embeddingBytes).flatten

/-- Embedding of `save_embeddings` (lines 32-46): the transmuted slice is
`embeddings.len() * 4` bytes of the batch's memory, the seek goes to byte
offset `offset` (the raw index, not scaled), and those bytes are written,
flushed and synced. -/
def save_embeddings (file : List Nat) (offset : Nat) (embeddings : List (List Nat)) :
    List Nat :=
  writeBytesAt file offset ((batchBytes embeddings).take (embeddings.length * 4))

/-- Modelled from the spec (§4.5): `record_size` is a fixed configuration
constant equal to the embedding dimension times the float byte width. -/
def record_size (dim : Nat) : Nat := dim * float_byte_width

/-- Modelled from the spec (§4.5): the specified write seeks to byte offset
`start_index * record_size` and writes the full batch back-to-back. -/
def spec_write (file : List Nat) (start_index dim : Nat) (embeddings : List (List Nat)) :
    List Nat :=
  writeBytesAt file (start_index * record_size dim) (batchBytes embeddings)

/-! ### Checkpoint file (src/batch.rs lines 57-70 and 94-97) -/

/-- Big-endian encoding of a 64-bit counter, as written by `write_u64`. -/
def u64be (v : Nat) : List Nat :=
  [v / 2 ^ 56 % 256, v / 2 ^ 48 % 256, v / 2 ^ 40 % 256, v / 2 ^ 32 % 256,
   v / 2 ^ 24 % 256, v / 2 ^ 16 % 256, v / 2 ^ 8 % 256, v % 256]

/-- Big-endian decoding, as read by `read_u64`. -/
def decodeU64be (b : List Nat) : Nat := b.foldl (fun a x => a * 256 + x) 0

/-- Startup handling of the progress file (lines 57-70).  `none` models an
absent file; `OpenOptions::create(true)` then creates it empty.  If the size
is not exactly 8 the code writes a zero counter at position 0 (the fresh file
position) and starts from cursor 0; otherwise it reads the 8-byte counter.
Returns (cursor, resulting file contents). -/
def initCheckpoint (file : Option (List Nat)) : Nat × List Nat :=
  let f := file.getD []
  if f.length ≠ 8 then (0, writeBytesAt f 0 (u64be 0))
  else (decodeU64be f, f)

/-- One checkpoint update in the orchestrator loop (lines 94-97): seek to 0,
write the 8-byte counter, flush, sync. -/
def ckptWrite (file : List Nat) (v : Nat) : List Nat := writeBytesAt file 0 (u64be v)

/-! ### Orchestrator loop (src/batch.rs lines 83-101)

Each iteration of the `while let` loop consumes one element of the buffered
task stream.  An `Iter` records how the external effects of that iteration
resolve: whether the spawned task completed (a `JoinError` otherwise, hit by
`embeds.unwrap()`), its inner result (embedding count and chunk failure
count, or a `VectorizationError`), and whether the vector save and the
checkpoint write succeed. -/

inductive VErr
  | embedErr
  | ioErr
deriving DecidableEq

inductive TaskRes
  | ok (cnt chf : Nat)
  | fail (e : VErr)
deriving DecidableEq

structure Iter where
  taskCompleted : Bool
  taskResult : TaskRes
  saveOk : Bool
  ckptOk : Bool
deriving DecidableEq

/-- In-memory loop state: the cursor `offset`, the durable checkpoint
counter, and the accumulated failure count. -/
structure LoopSt where
  offset : Nat
  ckpt : Nat
  failures : Nat
deriving DecidableEq

inductive StepRes
  | next (st : LoopSt)
  | fatal (e : VErr) (st : LoopSt)
  | panicked (st : LoopSt)
deriving DecidableEq

def embCount (it : Iter) : Nat :=
  match it.taskResult with
  | .ok c _ => c
  | .fail _ => 0

def chunkFailures (it : Iter) : Nat :=
  match it.taskResult with
  | .ok _ f => f
  | .fail _ => 0

/-- One iteration of the loop body (lines 85-98), in source order:
`embeds.unwrap()` panics on a `JoinError`; `?` propagates the inner error;
`save_embeddings` may fail (state unchanged); then `failures += chunk_failures`
and `offset += embeddings.len()`; then the checkpoint write may fail (the
in-memory state already advanced); otherwise the checkpoint now holds the new
offset. -/
def loopStep (st : LoopSt) (it : Iter) : StepRes :=
  if it.taskCompleted = false then .panicked st
  else
    match it.taskResult with
    | .fail e => .fatal e st
    | .ok cnt chf =>
      if it.saveOk = false then .fatal .ioErr st
      else
        if it.ckptOk = false then
          .fatal .ioErr ⟨st.offset + cnt, st.ckpt, st.failures + chf⟩
        else .next ⟨st.offset + cnt, st.offset + cnt, st.failures + chf⟩

def stateOf : StepRes → LoopSt
  | .next st => st
  | .fatal _ st => st
  | .panicked st => st

inductive RunRes
  | done (failures : Nat)
  | fatal (e : VErr)
  | panicked
deriving DecidableEq

/-- The whole `while let` loop (lines 83-101): returns the successive states
after each iteration and the run's outcome.  On clean exhaustion the function
returns `Ok(failures)`; a fatal error is returned to the caller; a `JoinError`
panics. -/
def runLoop (st : LoopSt) : List Iter → List LoopSt × RunRes
  | [] => ([], .done st.failures)
  | it :: rest =>
    match loopStep st it with
    | .next st' =>
      let p := runLoop st' rest
      (st' :: p.1, p.2)
    | .fatal e stF => ([stF], .fatal e)
    | .panicked stP => ([stP], .panicked)

/-- An iteration in which everything succeeds. -/
def goodIter (it : Iter) : Bool :=
  it.taskCompleted &&
    (match it.taskResult with
     | .ok _ _ => true
     | .fail _ => false) &&
    it.saveOk && it.ckptOk

def sumFailures (its : List Iter) : Nat := (its.map chunkFailures).sum

/-! ### Pipeline event trace (src/batch.rs lines 72-99)

`orchTrace n` is the sequence of observable events of a run over `n` chunks in
which the chunk source is always ready.  `.buffered(10)` refills its FIFO of
spawned tasks to capacity before yielding the head, so during each await of
`taskstream.next()` the embedding tasks are spawned (`tokio::spawn` in the
`map` closure) up to ten ahead; then the head result is yielded and the loop
body writes the vectors and the checkpoint. -/

inductive Ev
  | spawn (k : Nat)
  | yieldRes (k : Nat)
  | writeVec (k : Nat)
  | ckpt (k : Nat)
deriving DecidableEq

/-- The in-flight window of `.buffered(10)` (line 81). -/
def bufferWidth : Nat := 10

/-- `traceAux W n r y s`: remaining iterations `r`, next chunk to yield `y`,
chunks spawned so far `s`.  Each iteration first refills the buffer (spawning
up to `W` in flight, capped by the `n` available chunks), then yields chunk
`y`, writes its vectors, and writes the checkpoint. -/
def traceAux (W n : Nat) : Nat → Nat → Nat → List Ev
  | 0, _, _ => []
  | r + 1, y, s =>
    let ns := max s (min n (y + W))
    ((List.range (ns - s)).map fun i => Ev.spawn (s + i))
      ++ Ev.yieldRes y :: Ev.writeVec y :: Ev.ckpt y :: traceAux W n r (y + 1) ns

/-- The event trace of a full run over `n` chunks with the source ready. -/
def orchTrace (n : Nat) : List Ev := traceAux bufferWidth n n 0 0

/-- `precedesB tr a b`: some occurrence of `a` lies strictly before some
occurrence of `b` in the trace `tr`. -/
def precedesB (tr : List Ev) (a b : Ev) : Bool :=
  (List.range tr.length).any fun j =>
    (List.range j).any fun i => decide (tr[i]? = some a) && decide (tr[j]? = some b)

/-! ### Scheduler machine (src/batch.rs lines 76-81)

A small-step over-approximation of `map(tokio::spawn).buffered(10)` under an
adversarial completion order: tasks are spawned in chunk order whenever the
FIFO has capacity, any in-flight task may complete at any time, and the head
of the FIFO is yielded once its handle has resolved. -/

structure SchedState where
  nextSpawn : Nat
  queue : List Nat
  doneSet : List Nat
  yielded : List Nat
deriving DecidableEq

inductive SchedStep (n : Nat) : SchedState → SchedState → Prop
  | spawn (s : SchedState) (h1 : s.queue.length < bufferWidth) (h2 : s.nextSpawn < n) :
      SchedStep n s ⟨s.nextSpawn + 1, s.queue ++ [s.nextSpawn], s.doneSet, s.yielded⟩
  | complete (s : SchedState) (k : Nat) (h1 : k ∈ s.queue) (h2 : k ∉ s.doneSet) :
      SchedStep n s ⟨s.nextSpawn, s.queue, k :: s.doneSet, s.yielded⟩
  | emit (s : SchedState) (k : Nat) (rest : List Nat) (h1 : s.queue = k :: rest)
      (h2 : k ∈ s.doneSet) :
      SchedStep n s ⟨s.nextSpawn, rest, s.doneSet.erase k, s.yielded ++ [k]⟩

def schedInit : SchedState := ⟨0, [], [], []⟩

def SchedReach (n : Nat) : SchedState → SchedState → Prop :=
  Relation.ReflTransGen (SchedStep n)

/-- The inductive invariant of the scheduler: the yielded results are exactly
the first chunks in dispatch order, the FIFO holds the next consecutive
chunks, and at most `bufferWidth` chunks are in flight. -/
def SchedInv (s : SchedState) : Prop :=
  s.yielded = List.range s.yielded.length ∧
  s.queue = List.range' s.yielded.length s.queue.length ∧
  s.nextSpawn = s.yielded.length + s.queue.length ∧
  s.queue.length ≤ bufferWidth

/-! ## Helper lemmas -/

theorem writeBytesAt_zero (f b : List Nat) : writeBytesAt f 0 b = b ++ f.drop b.length := by
  simp [writeBytesAt]

theorem u64be_length (v : Nat) : (u64be v).length = 8 := rfl

theorem length_writeBytesAt_zero (f b : List Nat) (h : b.length ≤ f.length) :
    (writeBytesAt f 0 b).length = f.length := by
  rw [writeBytesAt_zero]
  simp
  omega

theorem length_ckptWrite (f : List Nat) (v : Nat) (h : 8 ≤ f.length) :
    (ckptWrite f v).length = f.length :=
  length_writeBytesAt_zero f (u64be v) (by rw [u64be_length]; exact h)

theorem length_foldl_ckptWrite (vs : List Nat) : ∀ g : List Nat, 8 ≤ g.length →
    (vs.foldl ckptWrite g).length = g.length := by
  induction vs with
  | nil => intro g _; rfl
  | cons v vs ih =>
    intro g h
    have hl : (ckptWrite g v).length = g.length := length_ckptWrite g v h
    rw [List.foldl_cons, ih (ckptWrite g v) (by omega), hl]

theorem initCheckpoint_of_ne_eight (f : List Nat) (h : f.length ≠ 8) :
    initCheckpoint (some f) = (0, u64be 0 ++ f.drop 8) := by
  simp [initCheckpoint, h, writeBytesAt_zero, u64be_length]

/-! ## Claims -/

/-- C1: the vector-store write is claimed to begin at byte offset
`start_index × record_size` and to write the full batch in the fixed
encoding.  The code instead seeks to the raw index and writes only
`embeddings.len() * 4` bytes.  Evaluation at the failing input: a file of 16
zero bytes, `start_index = 1`, one embedding of dimension 2 (words 1 and 2,
so `record_size 2 = 8`): the code writes 4 bytes at byte offset 1 while the
specified write puts the full 8-byte record at byte offset 8. -/
theorem c1_save_embeddings_defect :
    save_embeddings (List.replicate 16 0) 1 [[1, 2]]
        = [0, 1, 0, 0, 0] ++ List.replicate 11 0 ∧
    spec_write (List.replicate 16 0) 1 2 [[1, 2]]
        = List.replicate 8 0 ++ [1, 0, 0, 0, 2, 0, 0, 0] ∧
    save_embeddings (List.replicate 16 0) 1 [[1, 2]]
        ≠ spec_write (List.replicate 16 0) 1 2 [[1, 2]] ∧
    1 * record_size 2 = 8 := by decide

/-- C2: concatenating the emitted chunks is claimed to reproduce the input,
with a non-empty pending list flushed on exhaustion.  Evaluation at the
failing input: a single 1-token item under limit 1000000 (the limit used at
line 75) is consumed into the pending list and the stream then ends without
flushing, so no chunk at all is emitted and the item is lost. -/
theorem c2_trailing_chunk_dropped :
    chunks 1000000 (fun _ => 1) ["a"] = [] ∧
    (chunkRun 1000000 (fun _ => 1) ⟨[], 0⟩ ["a"]).2.collector = ["a"] := by decide

/-- C5: a flush is claimed to happen only with a non-empty pending list, the
flushed chunk to be the previous pending list (never empty), and the running
sum to track the pending items.  Evaluation at the failing inputs: with an
empty pending list and a first item of 11 tokens under limit 10,
`collect_string` flushes an *empty* chunk; and with three 6-token items under
limit 10 no flush ever happens, because the append branch never adds the new
item's tokens to `current_count` (the running sum stays stale), even though
the pending sum 12 exceeds the limit after the second item. -/
theorem c5_collect_string_defect :
    collect_string 10 (fun _ => 11) ⟨[], 0⟩ "a" = (some [], ⟨["a"], 11⟩) ∧
    chunks 10 (fun _ => 6) ["a", "b", "c"] = [] ∧
    (chunkRun 10 (fun _ => 6) ⟨[], 0⟩ ["a", "b", "c"]).2.current_count = 0 := by decide

/-- C6: an item whose own token count exceeds the limit is claimed to be
emitted in its own single-item chunk.  Evaluation at the failing input: a
single 11-token item under limit 10 makes the code emit one *empty* chunk
(the empty pending list is flushed) and the oversize item itself is then
dropped on exhaustion, never emitted at all. -/
theorem c6_oversize_item_dropped :
    chunks 10 (fun _ => 11) ["a"] = [[]] ∧
    (∀ c ∈ chunks 10 (fun _ => 11) ["a"], "a" ∉ c) := by decide

/-- C8: on startup, an absent progress file or one whose size is not exactly
8 bytes is not an error: the cursor becomes 0 and a zero counter is written
at the start of the file; with exactly 8 bytes the cursor is the big-endian
64-bit integer read from the file. -/
theorem c8_checkpoint_startup (file : Option (List Nat)) :
    ((file.getD []).length ≠ 8 →
      initCheckpoint file = (0, u64be 0 ++ (file.getD []).drop 8)) ∧
    ((file.getD []).length = 8 →
      initCheckpoint file = (decodeU64be (file.getD []), file.getD [])) := by
  constructor
  · intro h
    simp [initCheckpoint, h, writeBytesAt_zero, u64be_length]
  · intro h
    simp [initCheckpoint, h]

theorem c8_checkpoint_startup_witness :
    (([1, 2, 3] : List Nat).length ≠ 8 ∧
      initCheckpoint (some [1, 2, 3]) = (0, u64be 0 ++ ([1, 2, 3] : List Nat).drop 8)) ∧
    (([0, 0, 0, 0, 0, 0, 1, 2] : List Nat).length = 8 ∧
      initCheckpoint (some [0, 0, 0, 0, 0, 0, 1, 2])
        = (decodeU64be [0, 0, 0, 0, 0, 0, 1, 2], [0, 0, 0, 0, 0, 0, 1, 2])) :=
  ⟨⟨by decide, (c8_checkpoint_startup (some [1, 2, 3])).1 (by decide)⟩,
   ⟨by decide, (c8_checkpoint_startup (some [0, 0, 0, 0, 0, 0, 1, 2])).2 (by decide)⟩⟩

/-- C10: if the progress file is larger than 8 bytes at startup, the
re-initialization overwrites only its first 8 bytes (no truncation), so the
size stays larger than 8; checkpoint updates in the loop keep the size
unchanged as well, so every later startup again sees a size different from 8
and restarts with cursor 0, no matter how many checkpoints were written in
between. -/
theorem c10_oversized_checkpoint_resets (f : List Nat) (h : 8 < f.length) :
    (initCheckpoint (some f)).1 = 0 ∧
    (initCheckpoint (some f)).2.length = f.length ∧
    ∀ vs : List Nat,
      (vs.foldl ckptWrite (initCheckpoint (some f)).2).length = f.length ∧
      (initCheckpoint (some (vs.foldl ckptWrite (initCheckpoint (some f)).2))).1 = 0 := by
  have hne : f.length ≠ 8 := by omega
  have h1 : initCheckpoint (some f) = (0, u64be 0 ++ f.drop 8) :=
    initCheckpoint_of_ne_eight f hne
  have hlen : (initCheckpoint (some f)).2.length = f.length := by
    rw [h1]
    simp [u64be_length]
    omega
  refine ⟨by rw [h1], hlen, fun vs => ?_⟩
  have hfold : (vs.foldl ckptWrite (initCheckpoint (some f)).2).length = f.length := by
    rw [length_foldl_ckptWrite vs _ (by omega), hlen]
  refine ⟨hfold, ?_⟩
  rw [initCheckpoint_of_ne_eight _ (by omega)]

theorem c10_oversized_checkpoint_resets_witness :
    8 < (List.replicate 9 (1 : Nat)).length ∧
    ((initCheckpoint (some (List.replicate 9 1))).1 = 0 ∧
      (initCheckpoint (some (List.replicate 9 1))).2.length = (List.replicate 9 (1 : Nat)).length ∧
      ∀ vs : List Nat,
        (vs.foldl ckptWrite (initCheckpoint (some (List.replicate 9 1))).2).length
            = (List.replicate 9 (1 : Nat)).length ∧
        (initCheckpoint (some (vs.foldl ckptWrite (initCheckpoint (some (List.replicate 9 1))).2))).1
            = 0) :=
  ⟨by decide, c10_oversized_checkpoint_resets (List.replicate 9 1) (by decide)⟩

theorem loopStep_offset_le (st : LoopSt) (it : Iter) :
    st.offset ≤ (stateOf (loopStep st it)).offset := by
  cases hc : it.taskCompleted <;> cases ht : it.taskResult <;>
    cases hs : it.saveOk <;> cases hk : it.ckptOk <;>
      simp [loopStep, stateOf, hc, ht, hs, hk]

theorem runLoop_offset_chain (its : List Iter) : ∀ st : LoopSt,
    List.Chain' (fun a b => a.offset ≤ b.offset) (st :: (runLoop st its).1) := by
  induction its with
  | nil =>
    intro st
    simp [runLoop]
  | cons it rest ih =>
    intro st
    have hle := loopStep_offset_le st it
    cases hstep : loopStep st it with
    | next st' =>
      rw [hstep] at hle
      simp only [runLoop, hstep]
      exact List.chain'_cons.mpr ⟨hle, ih st'⟩
    | fatal e stF =>
      rw [hstep] at hle
      simp only [runLoop, hstep]
      exact List.chain'_cons.mpr ⟨hle, List.chain'_singleton _⟩
    | panicked stP =>
      rw [hstep] at hle
      simp only [runLoop, hstep]
      exact List.chain'_cons.mpr ⟨hle, List.chain'_singleton _⟩

/-- C4: along every run the cursor is monotonically non-decreasing; the
cursor moves only when the task completed and the vector save (write, flush,
sync) succeeded, and then by exactly the persisted batch's length; and when
the vector save fails, the loop stops with the cursor and the checkpoint
exactly as they were before the batch. -/
theorem c4_cursor_monotone_durable :
    (∀ (st : LoopSt) (its : List Iter),
      List.Chain' (fun a b => a.offset ≤ b.offset) (st :: (runLoop st its).1)) ∧
    (∀ (st : LoopSt) (it : Iter), (stateOf (loopStep st it)).offset ≠ st.offset →
      it.taskCompleted = true ∧ it.saveOk = true ∧
      (stateOf (loopStep st it)).offset = st.offset + embCount it) ∧
    (∀ (st : LoopSt) (it : Iter) (cnt chf : Nat), it.taskCompleted = true →
      it.taskResult = TaskRes.ok cnt chf → it.saveOk = false →
      loopStep st it = StepRes.fatal VErr.ioErr st) := by
  refine ⟨fun st its => runLoop_offset_chain its st, ?_, ?_⟩
  · intro st it h
    cases hc : it.taskCompleted <;> cases ht : it.taskResult <;>
      cases hs : it.saveOk <;> cases hk : it.ckptOk <;>
        simp [loopStep, stateOf, embCount, hc, ht, hs, hk] at h ⊢
  · intro st it cnt chf hc ht hs
    simp [loopStep, hc, ht, hs]

theorem c4_cursor_monotone_durable_witness :
    (stateOf (loopStep ⟨5, 5, 0⟩ ⟨true, TaskRes.ok 3 1, true, true⟩)).offset ≠
      (⟨5, 5, 0⟩ : LoopSt).offset ∧
    ((⟨true, TaskRes.ok 3 1, true, true⟩ : Iter).taskCompleted = true ∧
      (⟨true, TaskRes.ok 3 1, true, true⟩ : Iter).saveOk = true ∧
      (stateOf (loopStep ⟨5, 5, 0⟩ ⟨true, TaskRes.ok 3 1, true, true⟩)).offset
        = (⟨5, 5, 0⟩ : LoopSt).offset + embCount ⟨true, TaskRes.ok 3 1, true, true⟩) :=
  ⟨by decide,
   c4_cursor_monotone_durable.2.1 ⟨5, 5, 0⟩ ⟨true, TaskRes.ok 3 1, true, true⟩ (by decide)⟩

theorem loopStep_good (st : LoopSt) (it : Iter) (h : goodIter it = true) :
    loopStep st it
      = StepRes.next ⟨st.offset + embCount it, st.offset + embCount it,
                      st.failures + chunkFailures it⟩ := by
  cases hc : it.taskCompleted <;> cases ht : it.taskResult <;>
    cases hs : it.saveOk <;> cases hk : it.ckptOk <;>
      simp [goodIter, hc, ht, hs, hk] at h <;>
        simp [loopStep, embCount, chunkFailures, hc, ht, hs, hk]

theorem runLoop_res_good (its : List Iter) : ∀ st : LoopSt,
    (∀ it ∈ its, goodIter it = true) →
    (runLoop st its).2 = RunRes.done (st.failures + sumFailures its) := by
  induction its with
  | nil =>
    intro st _
    simp [runLoop, sumFailures]
  | cons it rest ih =>
    intro st h
    have hg := h it (List.mem_cons_self it rest)
    simp only [runLoop, loopStep_good st it hg]
    rw [ih _ fun j hj => h j (List.mem_cons_of_mem it hj)]
    simp [sumFailures, chunkFailures]
    cases ht : it.taskResult <;> simp [chunkFailures, ht] <;> omega

theorem runLoop_res_append_good (its : List Iter) (pre : List Iter) : ∀ st : LoopSt,
    (∀ j ∈ pre, goodIter j = true) →
    ∃ st' : LoopSt, (runLoop st (pre ++ its)).2 = (runLoop st' its).2 := by
  induction pre with
  | nil =>
    intro st _
    exact ⟨st, rfl⟩
  | cons j pre ih =>
    intro st h
    have hj := h j (List.mem_cons_self j pre)
    obtain ⟨st', hst'⟩ := ih _ fun x hx => h x (List.mem_cons_of_mem j hx)
    refine ⟨st', ?_⟩
    simp only [List.cons_append, runLoop, loopStep_good st j hj]
    exact hst'

/-- C9 (amended): on clean exhaustion the run returns the sum of the
per-chunk client-reported failure counts; a service or I/O error in the first
failing batch (after any number of fully successful batches) aborts the loop
and is returned to the caller as an error value; but a dispatched unit that
fails to complete hits `embeds.unwrap()` and panics instead of being returned
as an error; the checkpoint-size mismatch is recovered locally (cursor 0, not
an error). -/
theorem c9_error_propagation :
    (∀ (st : LoopSt) (its : List Iter), (∀ it ∈ its, goodIter it = true) →
      (runLoop st its).2 = RunRes.done (st.failures + sumFailures its)) ∧
    (∀ (st : LoopSt) (pre : List Iter) (it : Iter) (rest : List Iter) (e : VErr),
      (∀ j ∈ pre, goodIter j = true) → it.taskCompleted = true →
      it.taskResult = TaskRes.fail e →
      (runLoop st (pre ++ it :: rest)).2 = RunRes.fatal e) ∧
    (∀ (st : LoopSt) (pre : List Iter) (it : Iter) (rest : List Iter),
      (∀ j ∈ pre, goodIter j = true) → it.taskCompleted = false →
      (runLoop st (pre ++ it :: rest)).2 = RunRes.panicked) ∧
    (∀ f : Option (List Nat), (f.getD []).length ≠ 8 → (initCheckpoint f).1 = 0) := by
  refine ⟨fun st its h => runLoop_res_good its st h, ?_, ?_, ?_⟩
  · intro st pre it rest e hpre hc ht
    obtain ⟨st', hst'⟩ := runLoop_res_append_good (it :: rest) pre st hpre
    rw [hst']
    simp [runLoop, loopStep, hc, ht]
  · intro st pre it rest hpre hc
    obtain ⟨st', hst'⟩ := runLoop_res_append_good (it :: rest) pre st hpre
    rw [hst']
    simp [runLoop, loopStep, hc]
  · intro f h
    simp [initCheckpoint, h]

theorem c9_error_propagation_witness :
    (∀ it ∈ [(⟨true, TaskRes.ok 1 3, true, true⟩ : Iter)], goodIter it = true) ∧
    (runLoop ⟨0, 0, 2⟩ [(⟨true, TaskRes.ok 1 3, true, true⟩ : Iter)]).2
      = RunRes.done ((⟨0, 0, 2⟩ : LoopSt).failures
          + sumFailures [(⟨true, TaskRes.ok 1 3, true, true⟩ : Iter)]) :=
  ⟨by decide,
   c9_error_propagation.1 ⟨0, 0, 2⟩ [(⟨true, TaskRes.ok 1 3, true, true⟩ : Iter)] (by decide)⟩

/-- C9, as stated, is false on the code: a dispatched unit that fails to
complete (a `JoinError`, here `taskCompleted = false`) does not propagate to
the caller as an error value — `embeds.unwrap()` panics, so the run ends in
neither a failure count nor an error value. -/
theorem c9_execution_fault_panics :
    (runLoop ⟨0, 0, 0⟩ [(⟨false, TaskRes.ok 0 0, true, true⟩ : Iter)]).2 = RunRes.panicked ∧
    (∀ e : VErr,
      (runLoop ⟨0, 0, 0⟩ [(⟨false, TaskRes.ok 0 0, true, true⟩ : Iter)]).2 ≠ RunRes.fatal e) ∧
    (∀ f : Nat,
      (runLoop ⟨0, 0, 0⟩ [(⟨false, TaskRes.ok 0 0, true, true⟩ : Iter)]).2 ≠ RunRes.done f) := by
  have h : (runLoop ⟨0, 0, 0⟩ [(⟨false, TaskRes.ok 0 0, true, true⟩ : Iter)]).2
      = RunRes.panicked := by decide
  refine ⟨h, fun e he => ?_, fun f hf => ?_⟩
  · rw [h] at he
    exact RunRes.noConfusion he
  · rw [h] at hf
    exact RunRes.noConfusion hf

theorem traceAux_succ (W n r y s : Nat) :
    traceAux W n (r + 1) y s =
      ((List.range (max s (min n (y + W)) - s)).map fun i => Ev.spawn (s + i))
        ++ Ev.yieldRes y :: Ev.writeVec y :: Ev.ckpt y
          :: traceAux W n r (y + 1) (max s (min n (y + W))) := rfl

theorem precedesB_append_left {l1 l2 : List Ev} {a b : Ev} (h1 : a ∈ l1) (h2 : b ∈ l2) :
    precedesB (l1 ++ l2) a b = true := by
  obtain ⟨i, hi⟩ := List.mem_iff_getElem?.mp h1
  obtain ⟨j, hj⟩ := List.mem_iff_getElem?.mp h2
  have hil : i < l1.length := by
    by_contra hcon
    rw [List.getElem?_eq_none (by omega)] at hi
    exact Option.noConfusion hi
  have hjl : j < l2.length := by
    by_contra hcon
    rw [List.getElem?_eq_none (by omega)] at hj
    exact Option.noConfusion hj
  unfold precedesB
  rw [List.any_eq_true]
  refine ⟨l1.length + j, List.mem_range.mpr (by simp; omega), ?_⟩
  rw [List.any_eq_true]
  refine ⟨i, List.mem_range.mpr (by omega), ?_⟩
  rw [List.getElem?_append_left hil, List.getElem?_append_right (by omega)]
  simp [hi, hj]

theorem precedesB_append_right {l1 l2 : List Ev} {a b : Ev}
    (h : precedesB l2 a b = true) : precedesB (l1 ++ l2) a b = true := by
  unfold precedesB at h ⊢
  rw [List.any_eq_true] at h
  obtain ⟨j, hjr, hj⟩ := h
  rw [List.any_eq_true] at hj
  obtain ⟨i, hir, hib⟩ := hj
  have hj' := List.mem_range.mp hjr
  have hi' := List.mem_range.mp hir
  rw [Bool.and_eq_true, decide_eq_true_eq, decide_eq_true_eq] at hib
  rw [List.any_eq_true]
  refine ⟨l1.length + j, List.mem_range.mpr (by simp; omega), ?_⟩
  rw [List.any_eq_true]
  refine ⟨l1.length + i, List.mem_range.mpr (by omega), ?_⟩
  rw [List.getElem?_append_right (by omega), List.getElem?_append_right (by omega)]
  simp only [Nat.add_sub_cancel_left]
  simp [hib.1, hib.2]

theorem writeVec_mem_traceAux (W n k : Nat) : ∀ r y s, y ≤ k → k < y + r →
    Ev.writeVec k ∈ traceAux W n r y s := by
  intro r
  induction r with
  | zero =>
    intro y s h1 h2
    omega
  | succ r ih =>
    intro y s h1 h2
    rw [traceAux_succ]
    rcases Nat.eq_or_lt_of_le h1 with he | hlt
    · subst he
      exact List.mem_append_right _ (by simp)
    · exact List.mem_append_right _
        (List.mem_cons_of_mem _ (List.mem_cons_of_mem _ (List.mem_cons_of_mem _
          (ih (y + 1) _ hlt (by omega)))))

theorem ckpt_precedes_next_write (W n k : Nat) : ∀ r y s, y ≤ k → k + 1 < y + r →
    precedesB (traceAux W n r y s) (Ev.ckpt k) (Ev.writeVec (k + 1)) = true := by
  intro r
  induction r with
  | zero =>
    intro y s h1 h2
    omega
  | succ r ih =>
    intro y s h1 h2
    rw [traceAux_succ]
    rcases Nat.eq_or_lt_of_le h1 with he | hlt
    · subst he
      have hb : Ev.writeVec (y + 1) ∈ traceAux W n r (y + 1) (max s (min n (y + W))) :=
        writeVec_mem_traceAux W n (y + 1) r (y + 1) _ (Nat.le_refl _) (by omega)
      have hsplit :
          ((List.range (max s (min n (y + W)) - s)).map fun i => Ev.spawn (s + i))
              ++ Ev.yieldRes y :: Ev.writeVec y :: Ev.ckpt y
                :: traceAux W n r (y + 1) (max s (min n (y + W)))
            = (((List.range (max s (min n (y + W)) - s)).map fun i => Ev.spawn (s + i))
                ++ [Ev.yieldRes y, Ev.writeVec y, Ev.ckpt y])
              ++ traceAux W n r (y + 1) (max s (min n (y + W))) := by
        simp
      rw [hsplit]
      exact precedesB_append_left (List.mem_append_right _ (by simp)) hb
    · have h := ih (y + 1) (max s (min n (y + W))) hlt (by omega)
      have hsplit :
          ((List.range (max s (min n (y + W)) - s)).map fun i => Ev.spawn (s + i))
              ++ Ev.yieldRes y :: Ev.writeVec y :: Ev.ckpt y
                :: traceAux W n r (y + 1) (max s (min n (y + W)))
            = (((List.range (max s (min n (y + W)) - s)).map fun i => Ev.spawn (s + i))
                ++ [Ev.yieldRes y, Ev.writeVec y, Ev.ckpt y])
              ++ traceAux W n r (y + 1) (max s (min n (y + W))) := by
        simp
      rw [hsplit]
      exact precedesB_append_right h

/-- C3, as stated, is false on the code: with two chunks and a ready source,
the embedding call for chunk 1 is spawned while `buffered(10)` fills its
window, before chunk 0's result is even yielded — so batch 0's checkpoint
write does not precede the start of batch 1's embedding call. -/
theorem c3_spawn_before_checkpoint :
    precedesB (orchTrace 2) (Ev.spawn 1) (Ev.ckpt 0) = true ∧
    precedesB (orchTrace 2) (Ev.ckpt 0) (Ev.spawn 1) = false := by decide

/-- C3 (amended): after batch k is durably written, the checkpoint counter is
overwritten and made durable strictly before batch k+1's result is consumed —
in particular before batch k+1's vector write begins.  (The embedding call
for batch k+1 may already be in flight: up to 10 calls are dispatched
ahead.) -/
theorem c3_checkpoint_before_next_write (n k : Nat) (h : k + 1 < n) :
    precedesB (orchTrace n) (Ev.ckpt k) (Ev.writeVec (k + 1)) = true :=
  ckpt_precedes_next_write bufferWidth n k n 0 0 (Nat.zero_le k) (by omega)

theorem c3_checkpoint_before_next_write_witness :
    0 + 1 < 3 ∧ precedesB (orchTrace 3) (Ev.ckpt 0) (Ev.writeVec (0 + 1)) = true :=
  ⟨by decide, c3_checkpoint_before_next_write 3 0 (by decide)⟩

theorem sched_inv_step {n : Nat} {s s' : SchedState} (h : SchedInv s)
    (hs : SchedStep n s s') : SchedInv s' := by
  obtain ⟨h1, h2, h3, h4⟩ := h
  cases hs with
  | spawn hq hn =>
    refine ⟨h1, ?_, ?_, ?_⟩
    · show s.queue ++ [s.nextSpawn]
        = List.range' s.yielded.length (s.queue ++ [s.nextSpawn]).length
      have hlen : (s.queue ++ [s.nextSpawn]).length = s.queue.length + 1 := by simp
      rw [hlen, List.range'_concat, ← h2, h3, Nat.one_mul]
    · show s.nextSpawn + 1 = s.yielded.length + (s.queue ++ [s.nextSpawn]).length
      simp only [List.length_append, List.length_cons, List.length_nil]
      omega
    · show (s.queue ++ [s.nextSpawn]).length ≤ bufferWidth
      simp only [List.length_append, List.length_cons, List.length_nil]
      omega
  | complete k hk hnk => exact ⟨h1, h2, h3, h4⟩
  | emit k rest hq hk =>
    have hqlen : s.queue.length = rest.length + 1 := by rw [hq]; simp
    have hcons : k :: rest = List.range' s.yielded.length (rest.length + 1) := by
      rw [← hq, h2, hqlen]
    rw [List.range'_succ] at hcons
    rw [List.cons.injEq] at hcons
    obtain ⟨hkval, hrest⟩ := hcons
    refine ⟨?_, ?_, ?_, ?_⟩
    · show s.yielded ++ [k] = List.range (s.yielded ++ [k]).length
      have hlen : (s.yielded ++ [k]).length = s.yielded.length + 1 := by simp
      rw [hlen, List.range_succ, ← h1, hkval]
    · show rest = List.range' (s.yielded ++ [k]).length rest.length
      have hlen : (s.yielded ++ [k]).length = s.yielded.length + 1 := by simp
      rw [hlen]
      simpa using hrest
    · show s.nextSpawn = (s.yielded ++ [k]).length + rest.length
      have hlen : (s.yielded ++ [k]).length = s.yielded.length + 1 := by simp
      rw [hlen]
      omega
    · show rest.length ≤ bufferWidth
      omega

/-- C7: in every reachable state of the scheduler — for every interleaving of
task completions — the yielded results are exactly the chunks in dispatch
order (a chunk completing early is held back until all earlier chunks have
been yielded) and at most `bufferWidth = 10` chunks are in flight. -/
theorem c7_scheduler_ordered (n : Nat) (s : SchedState)
    (h : SchedReach n schedInit s) :
    s.yielded = List.range s.yielded.length ∧ s.queue.length ≤ bufferWidth := by
  have hinv : SchedInv s := by
    induction h with
    | refl => exact ⟨rfl, rfl, rfl, by decide⟩
    | tail hrtg hstep ih => exact sched_inv_step ih hstep
  exact ⟨hinv.1, hinv.2.2.2⟩

theorem c7_scheduler_ordered_witness :
    schedInit.yielded = List.range schedInit.yielded.length ∧
    schedInit.queue.length ≤ bufferWidth :=
  c7_scheduler_ordered 5 schedInit Relation.ReflTransGen.refl

end Vectorlink
